import Mathlib

/-!
Verification development for the project-builder state-synchronization
subsystem (`mcp_server`): the merge engine (`utils/file_manager.py`),
the versioned in-memory state store and its command handlers
(`server_mcp_sdk.py`), the subscriber hub and the cross-instance sync
watcher (`utils/broadcast_manager.py`).

Python JSON values are embedded as the inductive type `JValue`;
Python dicts (which preserve insertion order and have unique keys)
are association lists `List (String × JValue)`.
-/

/-- Embedding of a Python JSON value: dicts become ordered association
lists, lists become `List JValue`, plus string/int/bool/None scalars. -/
inductive JValue where
  | obj  : List (String × JValue) → JValue
  | arr  : List JValue → JValue
  | str  : String → JValue
  | num  : Int → JValue
  | bool : Bool → JValue
  | null : JValue
deriving Repr

abbrev Entry := String × JValue

mutual

/-- Structural (deep value) equality on embedded JSON values, the
embedding of Python `==` used by `in` checks in `deep_merge_dict`. -/
def beqV : JValue → JValue → Bool
  | .obj a, .obj b => beqO a b
  | .arr a, .arr b => beqA a b
  | .str a, .str b => a == b
  | .num a, .num b => a == b
  | .bool a, .bool b => a == b
  | .null, .null => true
  | _, _ => false


def beqO : List (String × JValue) → List (String × JValue) → Bool
  | [], [] => true
  | (k, v) :: r, (k', v') :: r' => k == k' && beqV v v' && beqO r r'
  | _, _ => false


def beqA : List JValue → List JValue → Bool
  | [], [] => true
  | v :: r, v' :: r' => beqV v v' && beqA r r'
  | _, _ => false


end

theorem beqO_iff : ∀ (la lb : List (String × JValue)),
    (∀ p ∈ la, ∀ b, (beqV p.2 b = true ↔ p.2 = b)) →
    (beqO la lb = true ↔ la = lb) := by
  intro la
  induction la with
  | nil => intro lb _; cases lb <;> simp [beqO]
  | cons hd tl ihl =>
    intro lb ih
    obtain ⟨k, v⟩ := hd
    cases lb with
    | nil => simp [beqO]
    | cons hd' tl' =>
      obtain ⟨k', v'⟩ := hd'
      have hv := ih (k, v) (by simp) v'
      have htl := ihl tl' (fun p hp b => ih p (by simp [hp]) b)
      simp [beqO, hv, htl]

theorem beqA_iff : ∀ (la lb : List JValue),
    (∀ p ∈ la, ∀ b, (beqV p b = true ↔ p = b)) →
    (beqA la lb = true ↔ la = lb) := by
  intro la
  induction la with
  | nil => intro lb _; cases lb <;> simp [beqA]
  | cons hd tl ihl =>
    intro lb ih
    cases lb with
    | nil => simp [beqA]
    | cons hd' tl' =>
      have hv := ih hd (by simp) hd'
      have htl := ihl tl' (fun p hp b => ih p (by simp [hp]) b)
      simp [beqA, hv, htl]

theorem beqV_iff (a b : JValue) : beqV a b = true ↔ a = b := by
  have H : ∀ n (a : JValue), sizeOf a ≤ n → ∀ b, (beqV a b = true ↔ a = b) := by
    intro n
    induction n with
    | zero => intro a ha; cases a <;> simp_arith at ha
    | succ n ihn =>
      intro a ha b
      cases a <;> cases b <;> simp [beqV]
      case obj.obj la lb =>
        apply beqO_iff
        intro p hp c
        apply ihn
        have h1 := List.sizeOf_lt_of_mem hp
        have h2 : sizeOf p.2 < sizeOf p := by
          obtain ⟨x, y⟩ := p; simp_arith
        simp_arith at ha
        omega
      case arr.arr la lb =>
        apply beqA_iff
        intro p hp c
        apply ihn
        have h1 := List.sizeOf_lt_of_mem hp
        simp_arith at ha
        omega
  exact H (sizeOf a) a (le_refl _) b

instance : DecidableEq JValue := fun a b =>
  decidable_of_iff (beqV a b = true) (beqV_iff a b)

/-- Python `d[k]` lookup / `k in d` on an ordered dict, embedded on the
association list: first binding wins. -/
def getKey : List Entry → String → Option JValue
  | [], _ => none
  | (k', v) :: rest, k => if k' = k then some v else getKey rest k

/-- Python `d[k] = v` on an ordered dict: replaces the value in place if
the key is present (position kept), otherwise appends the new binding. -/
def setKey : List Entry → String → JValue → List Entry
  | [], k, v => [(k, v)]
  | (k', v') :: rest, k, v =>
      if k' = k then (k, v) :: rest else (k', v') :: setKey rest k v

/-- The inner loop of `deep_merge_dict` for two lists (file_manager.py
lines 195-201): keep `cur` and append each item of `upd` that is not
already present, under deep value equality (Python `in`). -/
def addUnique (cur : List JValue) (item : JValue) : List JValue :=
  if item ∈ cur then cur else cur ++ [item]

def mergeLists (cur upd : List JValue) : List JValue :=
  upd.foldl addUnique cur

mutual

/-- Value-level dispatch of the per-key branch of `deep_merge_dict`
(file_manager.py lines 190-204): dict/dict recurses, list/list
concatenates without duplicates, anything else is overwritten by the
update value. -/
def mergeVal : JValue → JValue → JValue
  | .obj bw, .obj bv => .obj (deep_merge_dict bw bv)
  | .arr aw, .arr av => .arr (mergeLists aw av)
  | _, v => v


/-- Embedding of `deep_merge_dict(base, updates)` (file_manager.py
lines 175-209), as the value it returns: iterate over `updates` in
order; keys already in the accumulator are combined via `mergeVal`,
new keys are appended. -/
def deep_merge_dict : List Entry → List Entry → List Entry
  | base, [] => base
  | base, (k, v) :: rest =>
      deep_merge_dict
        (match getKey base k with
          | some w => setKey base k (mergeVal w v)
          | none => base ++ [(k, v)]) rest


end

/-- One iteration of the `for key, value in updates.items()` loop of
`deep_merge_dict`. -/
def mergeStep (base : List Entry) (k : String) (v : JValue) : List Entry :=
  match getKey base k with
  | some w => setKey base k (mergeVal w v)
  | none => base ++ [(k, v)]

/-- Spec-side description of the sequence-merge result: the elements of
the update sequence not already present in the accumulated sequence,
in update order (the suffix that `merge` appends after `current`). -/
def newElems (acc : List JValue) : List JValue → List JValue
  | [] => []
  | b :: bs => if b ∈ acc then newElems acc bs else b :: newElems (acc ++ [b]) bs

/-- Spec-side pointwise statement of the `merge` strategy, following the
specification text: for keys in both where both values are structured
trees, the recursive merge; for keys in both where both values are
sequences, the current sequence followed by exactly those elements of the
update sequence not already present in the accumulated result, in update
order, with nothing removed; for other collisions the update value wins;
keys present only in the update are added; keys absent from the update
are untouched. -/
def mergePointwiseSpec (A B : List Entry) : Prop :=
  ∀ k, getKey (deep_merge_dict A B) k =
    match getKey A k, getKey B k with
    | some (.obj aw), some (.obj bw) => some (.obj (deep_merge_dict aw bw))
    | some (.arr aw), some (.arr bw) => some (.arr (aw ++ newElems aw bw))
    | some _, some bv => some bv
    | some w, none => some w
    | none, ob => ob

mutual

/-- Post-state of the stored value `w` (aliased by both `base[key]` and
`result[key]` after the shallow `base.copy()`) once `deep_merge_dict`
has combined it with update value `v`: the list branch mutates the shared
list in place via `existing_items.append(item)`, the dict branch recurses
into the shared nested dict, and the overwrite branch only rebinds
`result[key]`, leaving the object `w` untouched. -/
def mutVal : JValue → JValue → JValue
  | .obj bw, .obj bv => .obj (base_after_merge bw bv)
  | .arr aw, .arr av => .arr (mergeLists aw av)
  | w, _ => w

/-- Post-state of the `base` argument after `deep_merge_dict(base, updates)`
returns: each key of `updates` that is present in `base` has its stored
value mutated per `mutVal`; keys only in `updates` are appended to the
copy `result` and never touch `base`. -/
def base_after_merge : List Entry → List Entry → List Entry
  | base, [] => base
  | base, (k, v) :: rest =>
      base_after_merge
        (match getKey base k with
          | some w => setKey base k (mutVal w v)
          | none => base) rest

end

/-- Key uniqueness at one object level: `k` does not occur among the keys. -/
def keyFresh (k : String) : List Entry → Bool
  | [] => true
  | (k', _) :: rest => (k' != k) && keyFresh k rest

mutual

/-- Well-formed embedded JSON value: every object, at every depth, has
pairwise distinct keys (always true of a value parsed from JSON / of a
Python dict). -/
def wfV : JValue → Bool
  | .obj l => wfO l
  | .arr l => wfA l
  | _ => true

def wfO : List Entry → Bool
  | [] => true
  | (k, v) :: rest => keyFresh k rest && wfV v && wfO rest

def wfA : List JValue → Bool
  | [] => true
  | v :: rest => wfV v && wfA rest

end

/-! ## Embedding of `update_json_file` (file_manager.py lines 225-298) -/

/-- Contents of one durable project document: free text for `.md`,
a parsed JSON dict for `.js`. -/
inductive FileContent where
  | text (s : String)
  | json (d : List Entry)
deriving DecidableEq, Repr

def VALID_FILE_TYPES : List String :=
  ["requirement.js", "ddd.js", "frontend_data.js", "technical_architecture.js", "summary.md"]

/-- Python `str.endswith`, on the characters of the embedded strings
(core `String.endsWith` is positional and does not evaluate inside the
kernel; suffix-of-char-lists is the same function and does). -/
def endsWith (s suffix : String) : Bool :=
  suffix.toList.isSuffixOf s.toList

/-- Embedding of `update_json_file(project_name, file_type, update_data,
merge_strategy)`. Filesystem facts are passed in: `project_present` is
`project_exists(project_name)`, `file_present` is `os.path.exists` of the
document, `current` is the on-disk content of the document. Returns the pair
(content written back, value returned) or the raised error. -/
def update_json_file (project_present file_present : Bool) (file_type : String)
    (current : FileContent) (update_data : JValue) (merge_strategy : String) :
    Except String (FileContent × JValue) :=
  if ¬ (VALID_FILE_TYPES.contains file_type) then
    .error "Invalid file_type"
  else if ¬ project_present then
    .error "Project does not exist"
  else if ¬ file_present then
    .error "File not found in project"
  else if endsWith file_type ".md" then
    match update_data with
    | .str s => .ok (.text s, .str s)
    | _ => .error "For markdown files update_data must be a string"
  else
    match update_data with
    | .obj u =>
      let current_data : List Entry :=
        match current with
        | .json d => d
        | .text _ => []
      if merge_strategy = "replace" then
        .ok (.json u, .obj u)
      else if merge_strategy = "merge" then
        .ok (.json (deep_merge_dict current_data u), .obj (deep_merge_dict current_data u))
      else if merge_strategy = "append" then
        .ok (.json (deep_merge_dict current_data u), .obj (deep_merge_dict current_data u))
      else
        .error "Invalid merge_strategy"
    | _ => .error "For JSON files update_data must be a dict"

/-! ## Embedding of the State Store and its command handlers
(server_mcp_sdk.py). Filesystem and network effects are passed in as
explicit inputs; the in-memory `current_project_data` / `state_version`
globals become `ServerState`. -/

/-- The four structured documents held in `current_project_data`. -/
structure ProjDocs where
  requirements : JValue
  ddd : JValue
  frontend_data : JValue
  technical_architecture : JValue
deriving DecidableEq, Repr

/-- The `current_project_data` global plus the `state_version` counter
(they are incremented together and always agree, so one field). -/
structure ServerState where
  project_name : String
  docs : ProjDocs
  summary : String
  version : Nat
  last_updated : String
  last_command : String
deriving DecidableEq, Repr

/-- The module-level initializer of `current_project_data`. -/
def initialServerState : ServerState :=
  { project_name := "", summary := "", version := 0, last_updated := "",
    last_command := "",
    docs := { requirements := .obj [], ddd := .obj [], frontend_data := .obj [],
              technical_architecture := .obj [] } }

/-- Events pushed over the real-time channel. The periodic reconciliation
broadcast carries no version field, hence the `Option`. -/
inductive BroadcastEvent where
  | project_initialized (version : Option Nat)
  | project_switched (version : Nat)
  | files_updated (version : Nat)
  | project_deleted (version : Nat)
deriving DecidableEq, Repr

/-- Embedding of `project_name.replace("_", "").isalnum()` from
handle_host_tool. -/
def valid_project_name (name : String) : Bool :=
  let rest := name.toList.filter (fun c => c ≠ '_')
  (¬ rest.isEmpty) && rest.all Char.isAlphanum

def initial_requirements (name t : String) : JValue :=
  .obj [("project_name", .str name), ("requirements", .arr []),
        ("user_flows", .arr []), ("features", .arr []), ("pages", .arr []),
        ("created_at", .str t)]

def initial_ddd : JValue :=
  .obj [("bounded_contexts", .arr []), ("entities", .arr []),
        ("value_objects", .arr []), ("aggregates", .arr []),
        ("services", .arr []), ("repositories", .arr []),
        ("domain_events", .arr [])]

def initial_frontend_data : JValue :=
  .obj [("pages", .arr []),
        ("theme", .obj [("colors", .obj []), ("fonts", .obj [])]),
        ("interactions", .arr [])]

def initial_technical_architecture : JValue :=
  .obj [("architecture_patterns", .arr []),
        ("technology_stack", .obj [("frontend", .arr []), ("backend", .arr []),
          ("database", .arr []), ("infrastructure", .arr [])]),
        ("system_components", .arr []),
        ("api_design", .obj [("rest_endpoints", .arr []),
          ("graphql_schema", .arr []), ("websocket_events", .arr [])]),
        ("data_models", .arr []),
        ("security", .obj [("authentication", .arr []),
          ("authorization", .arr []), ("encryption", .arr [])]),
        ("deployment", .obj [("environments", .arr []), ("ci_cd", .arr []),
          ("monitoring", .arr [])]),
        ("scalability", .obj [("caching_strategy", .arr []),
          ("load_balancing", .arr []), ("database_optimization", .arr [])])]

/-- The generated summary.md digest (prose abridged; no claim inspects
the text, only that it is stored and later cleared). -/
def summary_content (name t : String) : String :=
  "# " ++ name ++ "\n\n## Project Summary\n\n**Created:** " ++ t ++
  "\n\n## Status\n\nStatus: Initialized\nLast Updated: " ++ t ++ "\n"

/-- Embedding of `handle_host_tool` (server_mcp_sdk.py lines 201-480),
restricted to its effect on the State Store and the broadcast it emits.
`already` is `project_exists(project_name)`, `t` the timestamp taken by
`datetime.now().isoformat()`. Error paths return the state unchanged and
broadcast nothing. -/
def handle_host_tool (s : ServerState) (name : String) (already : Bool)
    (t : String) : ServerState × List BroadcastEvent :=
  if name = "" then (s, [])
  else if ¬ valid_project_name name then (s, [])
  else if already then (s, [])
  else
    let v := s.version + 1
    let prev := s.project_name
    let s' : ServerState :=
      { project_name := name,
        docs := { requirements := initial_requirements name t,
                  ddd := initial_ddd,
                  frontend_data := initial_frontend_data,
                  technical_architecture := initial_technical_architecture },
        summary := summary_content name t,
        version := v, last_updated := t, last_command := "host_tool" }
    (s', [if prev ≠ "" ∧ prev ≠ name then .project_switched v
          else .project_initialized (some v)])

/-- Python truthiness of an update payload (`if not update_data:`). -/
def pyFalsy : JValue → Bool
  | .obj l => l.isEmpty
  | .arr l => l.isEmpty
  | .str s => s.isEmpty
  | .num n => n = 0
  | .bool b => !b
  | .null => true

/-- The `file_key` assignment of `handle_update_project_files` lines 564-569:
`requirement.js` maps to the plural key `requirements`; `summary.md`
stores the returned string. -/
def set_file_data (s : ServerState) (file_type : String) (v : JValue) :
    ServerState :=
  if file_type = "requirement.js" then
    { s with docs := { s.docs with requirements := v } }
  else if file_type = "ddd.js" then
    { s with docs := { s.docs with ddd := v } }
  else if file_type = "frontend_data.js" then
    { s with docs := { s.docs with frontend_data := v } }
  else if file_type = "technical_architecture.js" then
    { s with docs := { s.docs with technical_architecture := v } }
  else if file_type = "summary.md" then
    { s with summary := match v with | .str str => str | _ => s.summary }
  else s

/-- Embedding of `handle_update_project_files` (server_mcp_sdk.py lines
483-655): validation, the on-disk update via `update_json_file`, then the
version bump, stamps and the `files_updated` broadcast. Every error path
(including exceptions raised by `update_json_file`) leaves the state
unchanged and broadcasts nothing. -/
def handle_update_project_files (s : ServerState) (name file_type : String)
    (update_data : JValue) (merge_strategy : String)
    (project_present file_present : Bool) (current : FileContent)
    (t : String) : ServerState × List BroadcastEvent :=
  if name = "" then (s, [])
  else if file_type = "" then (s, [])
  else if pyFalsy update_data then (s, [])
  else if ¬ (VALID_FILE_TYPES.contains file_type) then (s, [])
  else if ¬ project_present then (s, [])
  else
    match update_json_file project_present file_present file_type current
        update_data merge_strategy with
    | .error _ => (s, [])
    | .ok (_, updated_data) =>
      let v := s.version + 1
      let s' := { set_file_data s file_type updated_data with
                  project_name := name, version := v, last_updated := t,
                  last_command := "update_project_files" }
      (s', [.files_updated v])

/-- Result of `read_project_files`: the four structured documents plus the
optional summary text (empty string when absent). -/
structure ProjFiles where
  docs : ProjDocs
  summary : String
deriving DecidableEq, Repr

/-- Embedding of `handle_select_project` (server_mcp_sdk.py lines
729-908): loads all documents into the State Store, bumps the version and
broadcasts. `files` is the result of `read_project_files` (`none` for a
missing/incomplete project). -/
def handle_select_project (s : ServerState) (name : String) (present : Bool)
    (files : Option ProjFiles) (t : String) :
    ServerState × List BroadcastEvent :=
  if name = "" then (s, [])
  else if ¬ present then (s, [])
  else
    match files with
    | none => (s, [])
    | some pf =>
      let v := s.version + 1
      let prev := s.project_name
      let s' : ServerState :=
        { project_name := name, docs := pf.docs, summary := pf.summary,
          version := v, last_updated := t, last_command := "select_project" }
      (s', [if prev ≠ "" ∧ prev ≠ name then .project_switched v
            else .project_initialized (some v)])

/-- Embedding of `handle_delete_project` (server_mcp_sdk.py lines
911-1065). `shared_name` is the project named by the shared
current_project.json marker ("" when the file is missing or empty);
`folder_ok` / `registry_ok` say whether directory removal and registry
removal succeeded. The State Store is cleared, the version bumped and a
`project_deleted` event broadcast exactly when the deleted project is
active locally or in the shared file, and at least one removal step
succeeded. -/
def handle_delete_project (s : ServerState) (name : String) (present : Bool)
    (shared_name : String) (folder_ok registry_ok : Bool) (t : String) :
    ServerState × List BroadcastEvent :=
  if name = "" then (s, [])
  else if ¬ present then (s, [])
  else
    let is_active := (s.project_name = name) || (shared_name = name)
    if is_active && (folder_ok || registry_ok) then
      let v := s.version + 1
      let s' : ServerState :=
        { project_name := "",
          docs := { requirements := .obj [], ddd := .obj [],
                    frontend_data := .obj [], technical_architecture := .obj [] },
          summary := "", version := v, last_updated := t,
          last_command := "delete_project" }
      (s', [.project_deleted v])
    else (s, [])

/-- The snapshot `periodic_broadcast` compares (project name plus the four
structured documents). The code compares canonically serialized JSON
(`json.dumps(..., sort_keys=True)`); equality of the embedded values
implies equality of the serializations. -/
structure Snapshot where
  project_name : String
  docs : ProjDocs
deriving DecidableEq, Repr

/-- One iteration of the `periodic_broadcast` loop (server_mcp_sdk.py
lines 1118-1170): re-read the active project from disk (`disk` is the
`read_project_files` result), and if the snapshot differs from the last
broadcast one, overwrite the four documents in the State Store and
rebroadcast — without touching version, last_updated or last_command. -/
def periodic_broadcast_tick (s : ServerState) (lastB : Option Snapshot)
    (disk : Option ProjDocs) :
    ServerState × Option Snapshot × List BroadcastEvent :=
  if s.project_name = "" then (s, lastB, [])
  else
    match disk with
    | none => (s, lastB, [])
    | some d =>
      let snap : Snapshot := { project_name := s.project_name, docs := d }
      if some snap ≠ lastB then
        ({ s with docs := d }, some snap, [.project_initialized none])
      else (s, lastB, [])

/-- One mutating operation, with all its environment inputs. -/
inductive Op where
  | createProject (name : String) (already : Bool) (t : String)
  | updateFiles (name file_type : String) (update_data : JValue)
      (merge_strategy : String) (project_present file_present : Bool)
      (current : FileContent) (t : String)
  | selectProject (name : String) (present : Bool) (files : Option ProjFiles)
      (t : String)
  | deleteProject (name : String) (present : Bool) (shared_name : String)
      (folder_ok registry_ok : Bool) (t : String)
  | periodicTick (disk : Option ProjDocs)

/-- The State Store together with the `last_broadcast_data` of the
reconciliation loop. -/
structure SysState where
  server : ServerState
  lastBroadcast : Option Snapshot
deriving DecidableEq, Repr

def stepOp (σ : SysState) (op : Op) : SysState × List BroadcastEvent :=
  match op with
  | .createProject name already t =>
      let r := handle_host_tool σ.server name already t
      ({ σ with server := r.1 }, r.2)
  | .updateFiles name ft ud ms pp fp cur t =>
      let r := handle_update_project_files σ.server name ft ud ms pp fp cur t
      ({ σ with server := r.1 }, r.2)
  | .selectProject name present files t =>
      let r := handle_select_project σ.server name present files t
      ({ σ with server := r.1 }, r.2)
  | .deleteProject name present sh fok rok t =>
      let r := handle_delete_project σ.server name present sh fok rok t
      ({ σ with server := r.1 }, r.2)
  | .periodicTick disk =>
      let r := periodic_broadcast_tick σ.server σ.lastBroadcast disk
      ({ server := r.1, lastBroadcast := r.2.1 }, r.2.2)

def runOps (σ : SysState) : List Op → SysState
  | [] => σ
  | op :: ops => runOps (stepOp σ op).1 ops

/-- The timestamp a command operation stamps into `last_updated`; the
reconciliation tick stamps none. -/
def opTimestamp : Op → Option String
  | .createProject _ _ t => some t
  | .updateFiles _ _ _ _ _ _ _ t => some t
  | .selectProject _ _ _ t => some t
  | .deleteProject _ _ _ _ _ t => some t
  | .periodicTick _ => none

/-! ## Embedding of the Cross-Instance Sync Watcher
(`watch_current_project_file`, broadcast_manager.py lines 584-646). -/

/-- The shared current_project.json marker record as read by a watcher
tick: `none` when the file is missing, unreadable, or lacks a
project_name key; a missing version key reads as 0. -/
structure MarkerRec where
  project_name : String
  version : Nat
deriving DecidableEq, Repr

/-- One poll tick of `watch_current_project_file`: adopt the marker only
when its version strictly exceeds `_last_known_version`; on adoption,
reload the project and rebroadcast a `project_switched` event when the
files load and clients are connected. Otherwise the tick changes nothing
and broadcasts nothing. -/
def watch_tick (last_known : Nat) (marker : Option MarkerRec)
    (files : Option ProjFiles) (has_clients : Bool) :
    Nat × List BroadcastEvent :=
  match marker with
  | none => (last_known, [])
  | some m =>
    if m.version > last_known then
      (m.version,
        match files with
        | some _ => if has_clients then [.project_switched m.version] else []
        | none => [])
    else (last_known, [])

def runTicks (last_known : Nat) :
    List (Option MarkerRec × Option ProjFiles × Bool) → Nat
  | [] => last_known
  | i :: rest => runTicks (watch_tick last_known i.1 i.2.1 i.2.2).1 rest

/-! ## Embedding of the Subscriber Hub (broadcast_manager.py). -/

abbrev Client := Nat

inductive SendOutcome where
  | delivered
  | failed (e : String)
deriving DecidableEq, Repr

/-- The `connected_frontends` set (as a list; Python set membership is the
only operation used). -/
structure HubState where
  connected : List Client
deriving DecidableEq, Repr

/-- Embedding of `broadcast_to_frontends` (broadcast_manager.py lines
511-520): one send per registered client gathered with
`return_exceptions=True`, so every send is attempted, per-client failures
are collected instead of raised, and the registered set is not modified.
The `Except` is the exception channel to the caller: always `.ok`. -/
def broadcast_to_frontends (h : HubState) (send : Client → SendOutcome) :
    HubState × Except String (List SendOutcome) :=
  if h.connected.isEmpty then (h, .ok [])
  else (h, .ok (h.connected.map send))

/-- One 30-second iteration of the per-connection `keep_alive` loop
(broadcast_manager.py lines 55-70). Returns the hub state and whether the
loop keeps running: a failed ping, a cancelled task or a client no longer
in the set just ends the loop — the registered set is never modified
here. -/
def keep_alive_tick (h : HubState) (c : Client) (alive : Bool)
    (ping : Client → SendOutcome) : HubState × Bool :=
  if ¬ alive then (h, false)
  else if c ∈ h.connected then
    match ping c with
    | .delivered => (h, true)
    | .failed _ => (h, false)
  else (h, false)

/-- Embedding of `connected_frontends.add(websocket)` on connect (line 51). -/
def handle_connect (h : HubState) (c : Client) : HubState :=
  { connected := h.connected ++ [c] }

/-- Embedding of `connected_frontends.remove(websocket)` in the finally
block of the connection handler (line 508) — the only place a subscriber is unregistered. -/
def handle_disconnect (h : HubState) (c : Client) : HubState :=
  { connected := h.connected.erase c }

/-- A send function that fails for subscriber 1 and succeeds elsewhere,
used as a concrete network environment. -/
def failingSend : Client → SendOutcome :=
  fun c => if c = 1 then .failed "boom" else .delivered

example : deep_merge_dict [("a", .num 1)] [("a", .num 2), ("b", .num 3)] =
    [("a", .num 2), ("b", .num 3)] := by decide

example : deep_merge_dict [("a", .arr [.num 1, .num 2])] [("a", .arr [.num 2, .num 3])] =
    [("a", .arr [.num 1, .num 2, .num 3])] := by decide

example : base_after_merge [("a", .arr [.num 1])] [("a", .arr [.num 2])] =
    [("a", .arr [.num 1, .num 2])] := by decide

/-! ## Association-list lemmas -/

theorem getKey_setKey_self (l : List Entry) (k : String) (v : JValue) :
    getKey (setKey l k v) k = some v := by
  induction l with
  | nil => simp [setKey, getKey]
  | cons hd tl ih =>
    obtain ⟨k', v'⟩ := hd
    by_cases h : k' = k <;> simp [setKey, getKey, h, ih]

theorem getKey_setKey_ne (l : List Entry) (k k' : String) (v : JValue)
    (h : k' ≠ k) : getKey (setKey l k v) k' = getKey l k' := by
  have h' : k ≠ k' := Ne.symm h
  induction l with
  | nil => simp [setKey, getKey, h']
  | cons hd tl ih =>
    obtain ⟨k0, v0⟩ := hd
    by_cases h0 : k0 = k
    · subst h0
      simp [setKey, getKey, h']
    · simp [setKey, getKey, h0, ih]

theorem getKey_append_self (l : List Entry) (k : String) (v : JValue)
    (h : getKey l k = none) : getKey (l ++ [(k, v)]) k = some v := by
  induction l with
  | nil => simp [getKey]
  | cons hd tl ih =>
    obtain ⟨k0, v0⟩ := hd
    by_cases h0 : k0 = k
    · simp [getKey, h0] at h
    · simp [getKey, h0] at h ⊢
      exact ih h

theorem getKey_append_ne (l : List Entry) (k k' : String) (v : JValue)
    (h : k' ≠ k) : getKey (l ++ [(k, v)]) k' = getKey l k' := by
  have h' : k ≠ k' := Ne.symm h
  induction l with
  | nil => simp [getKey, h']
  | cons hd tl ih =>
    obtain ⟨k0, v0⟩ := hd
    by_cases h0 : k0 = k' <;> simp [getKey, h0, ih]

theorem setKey_eq_self (l : List Entry) (k : String) (v : JValue)
    (h : getKey l k = some v) : setKey l k v = l := by
  induction l with
  | nil => simp [getKey] at h
  | cons hd tl ih =>
    obtain ⟨k0, v0⟩ := hd
    by_cases h0 : k0 = k
    · subst h0
      simp [getKey] at h
      simp [setKey, h]
    · simp [getKey, h0] at h
      simp [setKey, h0, ih h]

theorem getKey_eq_none_of_keyFresh (l : List Entry) (k : String)
    (h : keyFresh k l = true) : getKey l k = none := by
  induction l with
  | nil => rfl
  | cons hd tl ih =>
    obtain ⟨k0, v0⟩ := hd
    simp [keyFresh] at h
    simp [getKey, h.1, ih h.2]

theorem wfO_cons_parts (k0 : String) (v0 : JValue) (tl : List Entry)
    (hl : wfO ((k0, v0) :: tl) = true) :
    keyFresh k0 tl = true ∧ wfV v0 = true ∧ wfO tl = true := by
  have h := hl
  simp [wfO] at h
  exact ⟨h.1.1, h.1.2, h.2⟩

theorem getKey_of_mem_wfO (l : List Entry) (k : String) (v : JValue)
    (hl : wfO l = true) (hm : (k, v) ∈ l) : getKey l k = some v := by
  induction l with
  | nil => simp at hm
  | cons hd tl ih =>
    obtain ⟨k0, v0⟩ := hd
    obtain ⟨hfresh, _, htl⟩ := wfO_cons_parts k0 v0 tl hl
    rcases List.mem_cons.mp hm with h | h
    · cases h
      simp [getKey]
    · have hk : k0 ≠ k := by
        intro hk
        subst hk
        have hnone := getKey_eq_none_of_keyFresh tl k0 hfresh
        rw [ih htl h] at hnone
        cases hnone
      simp [getKey, hk, ih htl h]

theorem wfV_of_mem_wfO (l : List Entry) (k : String) (v : JValue)
    (hl : wfO l = true) (hm : (k, v) ∈ l) : wfV v = true := by
  induction l with
  | nil => simp at hm
  | cons hd tl ih =>
    obtain ⟨k0, v0⟩ := hd
    obtain ⟨_, hv0, htl⟩ := wfO_cons_parts k0 v0 tl hl
    rcases List.mem_cons.mp hm with h | h
    · cases h
      exact hv0
    · exact ih htl h

/-! ## mergeLists lemmas -/

theorem mem_addUnique_left (cur : List JValue) (it x : JValue) (h : x ∈ cur) :
    x ∈ addUnique cur it := by
  unfold addUnique
  split <;> simp [h]

theorem mem_addUnique_self (cur : List JValue) (it : JValue) :
    it ∈ addUnique cur it := by
  unfold addUnique
  split <;> simp_all

theorem addUnique_eq_self (cur : List JValue) (it : JValue) (h : it ∈ cur) :
    addUnique cur it = cur := by
  simp [addUnique, h]

theorem mem_mergeLists_left (cur upd : List JValue) (x : JValue) (h : x ∈ cur) :
    x ∈ mergeLists cur upd := by
  induction upd generalizing cur with
  | nil => exact h
  | cons b bs ih => exact ih (addUnique cur b) (mem_addUnique_left cur b x h)

theorem mem_mergeLists_right (cur upd : List JValue) (x : JValue) (h : x ∈ upd) :
    x ∈ mergeLists cur upd := by
  induction upd generalizing cur with
  | nil => simp at h
  | cons b bs ih =>
    rcases List.mem_cons.mp h with rfl | h
    · exact mem_mergeLists_left _ bs x (mem_addUnique_self cur x)
    · exact ih (addUnique cur b) h

theorem mergeLists_eq_self_of_subset (cur upd : List JValue)
    (h : ∀ x ∈ upd, x ∈ cur) : mergeLists cur upd = cur := by
  induction upd with
  | nil => rfl
  | cons b bs ih =>
    have hb : b ∈ cur := h b (by simp)
    show mergeLists (addUnique cur b) bs = cur
    rw [addUnique_eq_self cur b hb]
    exact ih (fun x hx => h x (by simp [hx]))

theorem mergeLists_idem (cur upd : List JValue) :
    mergeLists (mergeLists cur upd) upd = mergeLists cur upd :=
  mergeLists_eq_self_of_subset _ _ (fun x hx => mem_mergeLists_right cur upd x hx)

theorem mergeLists_self (l : List JValue) : mergeLists l l = l :=
  mergeLists_eq_self_of_subset l l (fun _ hx => hx)

theorem mergeLists_eq_append_newElems (acc bs : List JValue) :
    mergeLists acc bs = acc ++ newElems acc bs := by
  induction bs generalizing acc with
  | nil => simp [mergeLists, newElems]
  | cons b bs ih =>
    show mergeLists (addUnique acc b) bs = acc ++ newElems acc (b :: bs)
    by_cases hb : b ∈ acc
    · rw [addUnique_eq_self acc b hb, ih]
      simp [newElems, hb]
    · have hap : addUnique acc b = acc ++ [b] := by simp [addUnique, hb]
      rw [hap, ih]
      simp [newElems, hb]

/-! ## deep_merge_dict lemmas -/

theorem deep_merge_dict_nil (base : List Entry) :
    deep_merge_dict base [] = base := rfl

theorem deep_merge_dict_cons (base : List Entry) (k : String) (v : JValue)
    (rest : List Entry) :
    deep_merge_dict base ((k, v) :: rest) =
      deep_merge_dict (mergeStep base k v) rest := rfl

theorem deep_merge_steps_id (base upd : List Entry)
    (h : ∀ p ∈ upd, mergeStep base p.1 p.2 = base) :
    deep_merge_dict base upd = base := by
  induction upd with
  | nil => rfl
  | cons p rest ih =>
    obtain ⟨k, v⟩ := p
    rw [deep_merge_dict_cons, h (k, v) (by simp)]
    exact ih (fun q hq => h q (by simp [hq]))

/-- Pointwise value of the merged dict: for keys of `updates` present in
`base` the two stored values are combined by `mergeVal`; keys only in
`updates` are added with the update value; keys absent from `updates` are
untouched. Needs unique keys in `updates` (true of any Python dict). -/
theorem getKey_deep_merge (B A : List Entry) (hB : wfO B = true) (k : String) :
    getKey (deep_merge_dict A B) k =
      match getKey B k with
      | none => getKey A k
      | some v =>
        match getKey A k with
        | some w => some (mergeVal w v)
        | none => some v := by
  induction B generalizing A with
  | nil => rw [deep_merge_dict_nil]; rfl
  | cons p rest ih =>
    obtain ⟨k0, v0⟩ := p
    obtain ⟨hfresh, _, hrest⟩ := wfO_cons_parts k0 v0 rest hB
    rw [deep_merge_dict_cons, ih _ hrest]
    by_cases hk : k0 = k
    · subst hk
      have hrnone : getKey rest k0 = none :=
        getKey_eq_none_of_keyFresh rest k0 hfresh
      rw [hrnone]
      have hself : getKey ((k0, v0) :: rest) k0 = some v0 := by simp [getKey]
      rw [hself]
      cases hA : getKey A k0 with
      | some w =>
        have hm : getKey (mergeStep A k0 v0) k0 = some (mergeVal w v0) := by
          simp [mergeStep, hA, getKey_setKey_self]
        rw [hm]
      | none =>
        have hm : getKey (mergeStep A k0 v0) k0 = some v0 := by
          simp [mergeStep, hA]
          exact getKey_append_self A k0 v0 hA
        rw [hm]
    · have htail : getKey ((k0, v0) :: rest) k = getKey rest k := by
        simp [getKey, hk]
      rw [htail]
      have hm : getKey (mergeStep A k0 v0) k = getKey A k := by
        cases hA : getKey A k0 with
        | some w =>
          simp [mergeStep, hA]
          exact getKey_setKey_ne A k0 k (mergeVal w v0) (Ne.symm hk)
        | none =>
          simp [mergeStep, hA]
          exact getKey_append_ne A k0 k v0 (Ne.symm hk)
      rw [hm]

theorem sizeOf_val_lt_of_mem (l : List Entry) (k : String) (v : JValue)
    (h : (k, v) ∈ l) : sizeOf v < sizeOf l := by
  have h1 := List.sizeOf_lt_of_mem h
  have h2 : sizeOf v < sizeOf (k, v) := by simp_arith
  omega

theorem mergeVal_self (v : JValue) (hv : wfV v = true) : mergeVal v v = v := by
  have H : ∀ n (v : JValue), sizeOf v ≤ n → wfV v = true → mergeVal v v = v := by
    intro n
    induction n with
    | zero => intro v hsz _; cases v <;> simp_arith at hsz
    | succ n ihn =>
      intro v hsz hv
      cases v with
      | obj l =>
        have hO : wfO l = true := by simpa [wfV] using hv
        have hd : deep_merge_dict l l = l := by
          apply deep_merge_steps_id
          intro p hp
          obtain ⟨k, w⟩ := p
          have hw : getKey l k = some w := getKey_of_mem_wfO l k w hO hp
          have hwf : wfV w = true := wfV_of_mem_wfO l k w hO hp
          have hsw : sizeOf w ≤ n := by
            have h1 := sizeOf_val_lt_of_mem l k w hp
            have h2 : sizeOf (JValue.obj l) = 1 + sizeOf l := by simp_arith
            omega
          show mergeStep l k w = l
          simp [mergeStep, hw, ihn w hsw hwf, setKey_eq_self l k w hw]
        simp [mergeVal, hd]
      | arr l => simp [mergeVal, mergeLists_self]
      | str s => rfl
      | num n' => rfl
      | bool b => rfl
      | null => rfl
  exact H (sizeOf v) v le_rfl hv

theorem deep_merge_idem_aux :
    ∀ n (B : List Entry), sizeOf B ≤ n → wfO B = true →
      ∀ A, deep_merge_dict (deep_merge_dict A B) B = deep_merge_dict A B := by
  intro n
  induction n with
  | zero => intro B hsz _ _; cases B <;> simp_arith at hsz
  | succ n ihn =>
    intro B hsz hB A
    apply deep_merge_steps_id
    intro p hp
    obtain ⟨k, v⟩ := p
    have hgB : getKey B k = some v := getKey_of_mem_wfO B k v hB hp
    have hwfv : wfV v = true := wfV_of_mem_wfO B k v hB hp
    have hchar := getKey_deep_merge B A hB k
    rw [hgB] at hchar
    show mergeStep (deep_merge_dict A B) k v = deep_merge_dict A B
    cases hA : getKey A k with
    | none =>
      rw [hA] at hchar
      dsimp at hchar
      simp [mergeStep, hchar, mergeVal_self v hwfv,
        setKey_eq_self _ k v hchar]
    | some w =>
      rw [hA] at hchar
      dsimp at hchar
      have key : mergeVal (mergeVal w v) v = mergeVal w v := by
        cases w <;> cases v <;> try exact mergeVal_self _ hwfv
        case obj.obj ww vv =>
          have hs : sizeOf vv ≤ n := by
            have h1 := sizeOf_val_lt_of_mem B k (.obj vv) hp
            have h2 : sizeOf (JValue.obj vv) = 1 + sizeOf vv := by simp_arith
            omega
          have hwo : wfO vv = true := by simpa [wfV] using hwfv
          simp [mergeVal, ihn vv hs hwo ww]
        case arr.arr aw av =>
          simp [mergeVal, mergeLists_idem]
      simp [mergeStep, hchar, key, setKey_eq_self _ k _ hchar]

theorem deep_merge_idem (A B : List Entry) (hB : wfO B = true) :
    deep_merge_dict (deep_merge_dict A B) B = deep_merge_dict A B :=
  deep_merge_idem_aux (sizeOf B) B le_rfl hB A

/-! ## Handler behaviour lemmas -/

theorem handle_host_tool_spec (s : ServerState) (name : String)
    (already : Bool) (t : String) :
    (handle_host_tool s name already t).1 = s ∨
      ((handle_host_tool s name already t).1.version = s.version + 1 ∧
       (handle_host_tool s name already t).1.last_updated = t) := by
  unfold handle_host_tool
  split_ifs <;> simp

theorem handle_update_spec (s : ServerState) (name ft : String) (ud : JValue)
    (ms : String) (pp fp : Bool) (cur : FileContent) (t : String) :
    (handle_update_project_files s name ft ud ms pp fp cur t).1 = s ∨
      ((handle_update_project_files s name ft ud ms pp fp cur t).1.version =
         s.version + 1 ∧
       (handle_update_project_files s name ft ud ms pp fp cur t).1.last_updated
         = t) := by
  unfold handle_update_project_files
  split_ifs <;> try (left; rfl)
  cases h : update_json_file pp fp ft cur ud ms with
  | error e => left; simp [h]
  | ok pr => right; simp [h]

theorem handle_select_spec (s : ServerState) (name : String) (present : Bool)
    (files : Option ProjFiles) (t : String) :
    (handle_select_project s name present files t).1 = s ∨
      ((handle_select_project s name present files t).1.version =
         s.version + 1 ∧
       (handle_select_project s name present files t).1.last_updated = t) := by
  unfold handle_select_project
  split_ifs <;> try (left; rfl)
  cases files with
  | none => left; rfl
  | some pf => right; simp

theorem handle_delete_spec (s : ServerState) (name : String) (present : Bool)
    (shared : String) (fok rok : Bool) (t : String) :
    (handle_delete_project s name present shared fok rok t).1 = s ∨
      ((handle_delete_project s name present shared fok rok t).1.version =
         s.version + 1 ∧
       (handle_delete_project s name present shared fok rok t).1.last_updated
         = t) := by
  unfold handle_delete_project
  dsimp only
  split_ifs <;> first | (left; rfl) | (right; simp)

theorem periodic_tick_frame (s : ServerState) (lastB : Option Snapshot)
    (disk : Option ProjDocs) :
    (periodic_broadcast_tick s lastB disk).1.version = s.version ∧
    (periodic_broadcast_tick s lastB disk).1.last_updated = s.last_updated ∧
    (periodic_broadcast_tick s lastB disk).1.project_name = s.project_name := by
  unfold periodic_broadcast_tick
  split_ifs with h
  · simp
  · cases disk with
    | none => simp
    | some d =>
      dsimp only
      split_ifs <;> simp

theorem stepOp_command_spec (σ : SysState) (op : Op) (t : String)
    (h : opTimestamp op = some t) :
    (stepOp σ op).1.server = σ.server ∨
      ((stepOp σ op).1.server.version = σ.server.version + 1 ∧
       (stepOp σ op).1.server.last_updated = t) := by
  cases op with
  | createProject name already t' =>
    simp [opTimestamp] at h
    subst h
    rcases handle_host_tool_spec σ.server name already t' with h1 | h2
    · left; simp [stepOp, h1]
    · right; simpa [stepOp] using h2
  | updateFiles name ft ud ms pp fp cur t' =>
    simp [opTimestamp] at h
    subst h
    rcases handle_update_spec σ.server name ft ud ms pp fp cur t' with h1 | h2
    · left; simp [stepOp, h1]
    · right; simpa [stepOp] using h2
  | selectProject name present files t' =>
    simp [opTimestamp] at h
    subst h
    rcases handle_select_spec σ.server name present files t' with h1 | h2
    · left; simp [stepOp, h1]
    · right; simpa [stepOp] using h2
  | deleteProject name present sh fok rok t' =>
    simp [opTimestamp] at h
    subst h
    rcases handle_delete_spec σ.server name present sh fok rok t' with h1 | h2
    · left; simp [stepOp, h1]
    · right; simpa [stepOp] using h2
  | periodicTick disk => simp [opTimestamp] at h

theorem stepOp_version_mono (σ : SysState) (op : Op) :
    σ.server.version ≤ (stepOp σ op).1.server.version := by
  cases hop : opTimestamp op with
  | some t =>
    rcases stepOp_command_spec σ op t hop with h1 | h2
    · rw [h1]
    · omega
  | none =>
    cases op <;> simp [opTimestamp] at hop
    case periodicTick disk =>
      have h := (periodic_tick_frame σ.server σ.lastBroadcast disk).1
      simp [stepOp, h]

theorem runOps_version_mono (σ : SysState) (ops : List Op) :
    σ.server.version ≤ (runOps σ ops).server.version := by
  induction ops generalizing σ with
  | nil => exact le_rfl
  | cons op ops ih =>
    exact le_trans (stepOp_version_mono σ op) (ih (stepOp σ op).1)

theorem delete_active_clears (s : ServerState) (name shared : String)
    (fok rok : Bool) (t : String) (hname : name ≠ "")
    (hactive : s.project_name = name ∨ shared = name)
    (hok : fok = true ∨ rok = true) :
    handle_delete_project s name true shared fok rok t =
      ({ project_name := "",
         docs := ⟨.obj [], .obj [], .obj [], .obj []⟩,
         summary := "", version := s.version + 1, last_updated := t,
         last_command := "delete_project" },
       [.project_deleted (s.version + 1)]) := by
  unfold handle_delete_project
  have hia : ((s.project_name = name) || (shared = name)) = true := by
    rcases hactive with h | h <;> simp [h]
  have hok' : (fok || rok) = true := by
    rcases hok with h | h <;> simp [h]
  simp [hname, hia, hok']

theorem delete_nonactive_untouched (s : ServerState) (name : String)
    (present : Bool) (shared : String) (fok rok : Bool) (t : String)
    (h1 : s.project_name ≠ name) (h2 : shared ≠ name) :
    handle_delete_project s name present shared fok rok t = (s, []) := by
  unfold handle_delete_project
  have hia : ((s.project_name = name) || (shared = name)) = false := by
    simp [h1, h2]
  simp [hia]

theorem watch_tick_mono (last : Nat) (marker : Option MarkerRec)
    (files : Option ProjFiles) (hc : Bool) :
    last ≤ (watch_tick last marker files hc).1 := by
  cases marker with
  | none => exact le_rfl
  | some m =>
    by_cases h : m.version > last
    · have he : (watch_tick last (some m) files hc).1 = m.version := by
        simp [watch_tick, h]
      rw [he]
      omega
    · have he : (watch_tick last (some m) files hc).1 = last := by
        simp [watch_tick, h]
      rw [he]

theorem runTicks_mono (last : Nat)
    (ticks : List (Option MarkerRec × Option ProjFiles × Bool)) :
    last ≤ runTicks last ticks := by
  induction ticks generalizing last with
  | nil => exact le_rfl
  | cons i rest ih =>
    exact le_trans (watch_tick_mono last i.1 i.2.1 i.2.2) (ih _)

/-! ## Claim theorems -/

/-- C1 counterexample: a Periodic Reconciliation tick that finds changed
documents on disk overwrites the documents held in the State Store but
leaves version (and last_updated) unchanged — refuting "there is no
operation that changes the documents held in the State Store without
bumping version — in particular the Periodic Reconciliation task must
also bump version when it changes them". -/
theorem periodic_reconciliation_no_version_bump :
    (stepOp
        ⟨{ project_name := "demo",
           docs := ⟨.obj [], .obj [], .obj [], .obj []⟩, summary := "",
           version := 5, last_updated := "T0", last_command := "host_tool" },
         none⟩
        (Op.periodicTick
          (some ⟨.obj [("x", .null)], .obj [], .obj [], .obj []⟩))).1.server.docs
      ≠ (⟨.obj [], .obj [], .obj [], .obj []⟩ : ProjDocs) ∧
    (stepOp
        ⟨{ project_name := "demo",
           docs := ⟨.obj [], .obj [], .obj [], .obj []⟩, summary := "",
           version := 5, last_updated := "T0", last_command := "host_tool" },
         none⟩
        (Op.periodicTick
          (some ⟨.obj [("x", .null)], .obj [], .obj [], .obj []⟩))).1.server.version
      = 5 ∧
    (stepOp
        ⟨{ project_name := "demo",
           docs := ⟨.obj [], .obj [], .obj [], .obj []⟩, summary := "",
           version := 5, last_updated := "T0", last_command := "host_tool" },
         none⟩
        (Op.periodicTick
          (some ⟨.obj [("x", .null)], .obj [], .obj [], .obj []⟩))).1.server.last_updated
      = "T0" := by decide

/-- C1 (amended): each of the four command operations (create project,
update a document, select project, delete project) either leaves the
State Store entirely unchanged (its validation/error paths) or increments
version by exactly 1 and stamps last_updated with the operation
timestamp; version never decreases across any single operation or any
sequence of operations. The original claim additionally required the
Periodic Reconciliation task to bump version when it overwrites the
documents; the counterexample shows it does not. -/
theorem state_store_version_discipline :
    (∀ (σ : SysState) (op : Op) (t : String), opTimestamp op = some t →
        (stepOp σ op).1.server = σ.server ∨
          ((stepOp σ op).1.server.version = σ.server.version + 1 ∧
           (stepOp σ op).1.server.last_updated = t)) ∧
    (∀ (σ : SysState) (op : Op),
        σ.server.version ≤ (stepOp σ op).1.server.version) ∧
    (∀ (σ : SysState) (ops : List Op),
        σ.server.version ≤ (runOps σ ops).server.version) :=
  ⟨stepOp_command_spec, stepOp_version_mono, runOps_version_mono⟩

theorem state_store_version_discipline_witness :
    opTimestamp (Op.createProject "demo" false "T1") = some "T1" ∧
      ((stepOp ⟨initialServerState, none⟩
            (Op.createProject "demo" false "T1")).1.server =
          (⟨initialServerState, none⟩ : SysState).server ∨
        ((stepOp ⟨initialServerState, none⟩
              (Op.createProject "demo" false "T1")).1.server.version =
            (⟨initialServerState, none⟩ : SysState).server.version + 1 ∧
         (stepOp ⟨initialServerState, none⟩
              (Op.createProject "demo" false "T1")).1.server.last_updated =
            "T1")) :=
  ⟨rfl,
   state_store_version_discipline.1 ⟨initialServerState, none⟩ _ "T1" rfl⟩

/-- C4: the Cross-Instance Sync Watcher accepts markers monotonically —
a tick whose marker version is at most the last known version does
nothing at all (no state change, no broadcast), an unreadable marker does
nothing, a strictly newer marker sets the last known version to the
marker version, and over any tick (and any tick sequence) the last known
version never decreases. -/
theorem watcher_monotonic_acceptance :
    (∀ (last : Nat) (m : MarkerRec) (files : Option ProjFiles) (hc : Bool),
        m.version ≤ last → watch_tick last (some m) files hc = (last, [])) ∧
    (∀ (last : Nat) (files : Option ProjFiles) (hc : Bool),
        watch_tick last none files hc = (last, [])) ∧
    (∀ (last : Nat) (m : MarkerRec) (files : Option ProjFiles) (hc : Bool),
        last < m.version →
        (watch_tick last (some m) files hc).1 = m.version) ∧
    (∀ (last : Nat) (marker : Option MarkerRec) (files : Option ProjFiles)
        (hc : Bool), last ≤ (watch_tick last marker files hc).1) ∧
    (∀ (last : Nat)
        (ticks : List (Option MarkerRec × Option ProjFiles × Bool)),
        last ≤ runTicks last ticks) := by
  refine ⟨?_, ?_, ?_, watch_tick_mono, runTicks_mono⟩
  · intro last m files hc hle
    have h' : ¬ (m.version > last) := by omega
    simp [watch_tick, h']
  · intro last files hc
    rfl
  · intro last m files hc hlt
    simp [watch_tick, hlt]

theorem watcher_monotonic_acceptance_witness :
    (3 : Nat) ≤ 5 ∧
      watch_tick 5 (some ⟨"p", 3⟩) none false = (5, []) :=
  ⟨by decide,
   watcher_monotonic_acceptance.1 5 ⟨"p", 3⟩ none false (by decide)⟩

/-- C5: broadcast delivers to each registered subscriber independently —
the outcome recorded for every subscriber is exactly its own send result
(one entry per subscriber, so one failure neither blocks the others nor
changes their outcomes), the call never surfaces an exception to the
caller (the result is always `.ok`, exceptions being collected per send
by gather with return_exceptions=True), and broadcasting with zero
registered subscribers is a no-op, not an error. -/
theorem broadcast_isolated_delivery :
    (∀ send : Client → SendOutcome,
        broadcast_to_frontends ⟨[]⟩ send = (⟨[]⟩, .ok [])) ∧
    (∀ (h : HubState) (send : Client → SendOutcome),
        (broadcast_to_frontends h send).2 = .ok (h.connected.map send)) ∧
    (∀ (c : Client) (rest : List Client) (send : Client → SendOutcome),
        (broadcast_to_frontends ⟨c :: rest⟩ send).2 =
          .ok (send c :: rest.map send)) := by
  refine ⟨?_, ?_, ?_⟩
  · intro send
    rfl
  · intro h send
    obtain ⟨l⟩ := h
    cases l <;> simp [broadcast_to_frontends]
  · intro c rest send
    simp [broadcast_to_frontends]

/-- C8 counterexample: with registered subscribers [1, 2] and a send that
fails on subscriber 1, the broadcast collects the failure but leaves the
registered set unchanged — the failed subscriber 1 is still registered —
and a failed keep-alive ping merely ends that ping loop, also without
unregistering anyone. This refutes "a failed network send removes exactly
that one subscriber" and "a subscriber whose heartbeat probe fails is
unregistered". -/
theorem failed_send_not_removed :
    (broadcast_to_frontends ⟨[1, 2]⟩ failingSend).2 =
      Except.ok [SendOutcome.failed "boom", SendOutcome.delivered] ∧
    (broadcast_to_frontends ⟨[1, 2]⟩ failingSend).1 = ⟨[1, 2]⟩ ∧
    keep_alive_tick ⟨[1, 2]⟩ 1 true failingSend = (⟨[1, 2]⟩, false) :=
  ⟨rfl, rfl, rfl⟩

/-- C8 (amended): a failed network send is not retried (each registered
subscriber is sent to exactly once per broadcast, its outcome being its
own send result) and leaves the registered set unchanged — the failed
subscriber stays registered; a failed heartbeat ping only terminates that
keep-alive loop of that subscriber, without unregistering it; a
subscriber is removed only by the disconnect path of its handler, which removes
exactly that one subscriber and no other. -/
theorem send_failure_handling :
    (∀ (h : HubState) (send : Client → SendOutcome),
        (broadcast_to_frontends h send).1 = h ∧
        (broadcast_to_frontends h send).2 = .ok (h.connected.map send)) ∧
    (∀ (h : HubState) (c : Client) (ping : Client → SendOutcome) (e : String),
        ping c = .failed e → keep_alive_tick h c true ping = (h, false)) ∧
    (∀ (h : HubState) (c c' : Client), h.connected.Nodup →
        c ∉ (handle_disconnect h c).connected ∧
        (c' ≠ c →
          ((c' ∈ (handle_disconnect h c).connected) ↔ c' ∈ h.connected))) := by
  refine ⟨?_, ?_, ?_⟩
  · intro h send
    obtain ⟨l⟩ := h
    cases l <;> simp [broadcast_to_frontends]
  · intro h c ping e hp
    by_cases hm : c ∈ h.connected <;> simp [keep_alive_tick, hm, hp]
  · intro h c c' hnd
    simp only [handle_disconnect]
    constructor
    · intro hmem
      exact ((List.Nodup.mem_erase_iff hnd).mp hmem).1 rfl
    · intro hne
      exact List.mem_erase_of_ne hne

theorem send_failure_handling_witness :
    failingSend 1 = SendOutcome.failed "boom" ∧
      keep_alive_tick ⟨[1, 2]⟩ 1 true failingSend = (⟨[1, 2]⟩, false) :=
  ⟨rfl, send_failure_handling.2.1 ⟨[1, 2]⟩ 1 failingSend "boom" rfl⟩

/-- C9 counterexample: the delete handler treats a project as "active"
when it is named either by the local State Store or by the shared
current_project.json marker. Here the State Store holds projA, yet
deleting projB (named in the shared marker, directory removal
succeeding) clears the State Store, bumps the version and broadcasts a
deletion event — refuting "deleting a project that is not the active one
leaves the State Store completely untouched (no field changes, no
version bump, no deletion broadcast)". -/
theorem delete_nonlocal_project_clears_store :
    (handle_delete_project
        { project_name := "projA",
          docs := ⟨.obj [], .obj [], .obj [], .obj []⟩, summary := "sum",
          version := 3, last_updated := "T0",
          last_command := "select_project" }
        "projB" true "projB" true false "T1").1.project_name = "" ∧
    (handle_delete_project
        { project_name := "projA",
          docs := ⟨.obj [], .obj [], .obj [], .obj []⟩, summary := "sum",
          version := 3, last_updated := "T0",
          last_command := "select_project" }
        "projB" true "projB" true false "T1").1.version = 4 ∧
    (handle_delete_project
        { project_name := "projA",
          docs := ⟨.obj [], .obj [], .obj [], .obj []⟩, summary := "sum",
          version := 3, last_updated := "T0",
          last_command := "select_project" }
        "projB" true "projB" true false "T1").2 =
      [BroadcastEvent.project_deleted 4] ∧
    ("projA" : String) ≠ "projB" := by decide

/-- C9 (amended): deleting a project that is active — named by the local
State Store or by the shared current_project.json marker — clears the
State Store to empty name and empty documents, bumps the version by
exactly 1, stamps last_updated, and broadcasts a project_deleted event,
provided directory removal or registry removal succeeded; deleting a
project active in neither place leaves the State Store completely
untouched and broadcasts nothing. -/
theorem delete_project_frame :
    (∀ (s : ServerState) (name shared : String) (fok rok : Bool)
        (t : String), name ≠ "" →
        (s.project_name = name ∨ shared = name) →
        (fok = true ∨ rok = true) →
        handle_delete_project s name true shared fok rok t =
          ({ project_name := "",
             docs := ⟨.obj [], .obj [], .obj [], .obj []⟩, summary := "",
             version := s.version + 1, last_updated := t,
             last_command := "delete_project" },
           [.project_deleted (s.version + 1)])) ∧
    (∀ (s : ServerState) (name : String) (present : Bool) (shared : String)
        (fok rok : Bool) (t : String),
        s.project_name ≠ name → shared ≠ name →
        handle_delete_project s name present shared fok rok t = (s, [])) :=
  ⟨delete_active_clears, delete_nonactive_untouched⟩

theorem delete_project_frame_witness :
    (("p" : String) ≠ "" ∧
     (("p" : String) = "p" ∨ ("" : String) = "p") ∧
     (true = true ∨ false = true)) ∧
      handle_delete_project
          { project_name := "p",
            docs := ⟨.obj [], .obj [], .obj [], .obj []⟩, summary := "",
            version := 1, last_updated := "", last_command := "" }
          "p" true "" true false "T" =
        ({ project_name := "",
           docs := ⟨.obj [], .obj [], .obj [], .obj []⟩, summary := "",
           version := 2, last_updated := "T",
           last_command := "delete_project" },
         [.project_deleted 2]) ∧
      (let s0 : ServerState :=
        { project_name := "p",
          docs := ⟨.obj [], .obj [], .obj [], .obj []⟩, summary := "",
          version := 1, last_updated := "", last_command := "" }
       handle_delete_project s0 "q" true "" true false "T" = (s0, [])) :=
  ⟨⟨by decide, Or.inl rfl, Or.inl rfl⟩,
   delete_project_frame.1 _ "p" "" true false "T" (by decide) (Or.inl rfl)
     (Or.inl rfl),
   delete_project_frame.2 _ "q" true "" true false "T" (by decide)
     (by decide)⟩

/-- C2: for structured current document A and structured update B (with
the unique keys every Python dict has), strategy merge satisfies the
pointwise specification — recursive merge on dict/dict keys, on list/list
keys the current list followed by exactly those update elements not already
present in the accumulated sequence in update order with nothing removed,
update-wins on scalar or mismatched collisions, and keys only in B added —
and strategy append behaves identically to merge. -/
theorem merge_strategy_pointwise (A B : List Entry) (hB : wfO B = true) :
    mergePointwiseSpec A B ∧
      ∀ (pp fp : Bool) (ft : String) (current : FileContent) (u : JValue),
        update_json_file pp fp ft current u "append" =
          update_json_file pp fp ft current u "merge" := by
  constructor
  · intro k
    have h := getKey_deep_merge B A hB k
    cases hBk : getKey B k with
    | none =>
      rw [hBk] at h
      dsimp at h
      rw [h]
      cases hA : getKey A k with
      | none => rfl
      | some w => cases w <;> rfl
    | some v =>
      rw [hBk] at h
      cases hA : getKey A k with
      | none =>
        rw [hA] at h
        dsimp at h
        rw [h]
      | some w =>
        rw [hA] at h
        dsimp at h
        rw [h]
        cases w <;> cases v <;>
          simp [mergeVal, mergeLists_eq_append_newElems]
  · intro pp fp ft current u
    cases u <;> simp [update_json_file]

/-- C3: merging is idempotent — applying the same structured update B
twice via strategy merge equals applying it once. -/
theorem merge_idempotent (A B : List Entry) (hB : wfO B = true) :
    deep_merge_dict (deep_merge_dict A B) B = deep_merge_dict A B :=
  deep_merge_idem A B hB

theorem merge_idempotent_witness :
    wfO [("features", JValue.arr [JValue.str "login"])] = true ∧
      deep_merge_dict
          (deep_merge_dict [("features", JValue.arr [])]
            [("features", JValue.arr [JValue.str "login"])])
          [("features", JValue.arr [JValue.str "login"])] =
        deep_merge_dict [("features", JValue.arr [])]
          [("features", JValue.arr [JValue.str "login"])] :=
  ⟨by decide, merge_idempotent _ _ (by decide)⟩

theorem merge_strategy_pointwise_witness :
    wfO [("b", JValue.num 3)] = true ∧
      (mergePointwiseSpec [("a", JValue.num 1)] [("b", JValue.num 3)] ∧
       ∀ (pp fp : Bool) (ft : String) (current : FileContent) (u : JValue),
         update_json_file pp fp ft current u "append" =
           update_json_file pp fp ft current u "merge") :=
  ⟨by decide,
   merge_strategy_pointwise [("a", JValue.num 1)] [("b", JValue.num 3)]
     (by decide)⟩

/-- C6: the Merge Engine is claimed to be pure, and the docstring of
`deep_merge_dict` itself says "base is not modified, returns new dict"; but
`result = base.copy()` is a shallow copy and the list branch appends into
the aliased list, so after `deep_merge_dict({"x": [1]}, {"x": [2]})` the
base argument has become `{"x": [1, 2]}` — the code contradicts its own
documentation. This theorem evaluates the modelled post-state of `base`
at that failing input. -/
theorem deep_merge_mutates_base_lists :
    base_after_merge [("x", JValue.arr [JValue.num 1])]
        [("x", JValue.arr [JValue.num 2])] =
      [("x", JValue.arr [JValue.num 1, JValue.num 2])] ∧
    base_after_merge [("x", JValue.arr [JValue.num 1])]
        [("x", JValue.arr [JValue.num 2])] ≠
      [("x", JValue.arr [JValue.num 1])] := by decide

/-- C7 counterexample: an unknown strategy name on a free-text (.md)
document is accepted, not rejected — the markdown branch of
`update_json_file` writes the payload and returns before the strategy
name is ever examined, refuting "a strategy name outside
replace/merge/append yields a validation error regardless of whether the
target document is structured (.js) or free-text (.md)". -/
theorem md_unknown_strategy_accepted :
    update_json_file true true "summary.md" (.text "old") (.str "new text")
        "bogus" = .ok (.text "new text", .str "new text") := rfl

/-- C7 (amended): an unknown strategy name yields a validation error (and
nothing is written) for structured (.js) documents only — on free-text
(.md) documents the strategy name is never examined; and a payload whose
top-level type disagrees with the document category (non-dict for .js,
non-string for .md) yields a validation error for both categories. In the
embedding an `.error` result is exactly the no-write outcome: content is
only produced under `.ok`. -/
theorem update_validation_errors :
    (∀ (ft : String) (current : FileContent) (l : List Entry) (ms : String),
        VALID_FILE_TYPES.contains ft = true → endsWith ft ".md" = false →
        ms ≠ "replace" → ms ≠ "merge" → ms ≠ "append" →
        update_json_file true true ft current (.obj l) ms =
          .error "Invalid merge_strategy") ∧
    (∀ (ft : String) (current : FileContent) (u : JValue) (ms : String),
        VALID_FILE_TYPES.contains ft = true → endsWith ft ".md" = true →
        (∀ s, u ≠ .str s) →
        update_json_file true true ft current u ms =
          .error "For markdown files update_data must be a string") ∧
    (∀ (ft : String) (current : FileContent) (u : JValue) (ms : String),
        VALID_FILE_TYPES.contains ft = true → endsWith ft ".md" = false →
        (∀ l, u ≠ .obj l) →
        update_json_file true true ft current u ms =
          .error "For JSON files update_data must be a dict") := by
  refine ⟨?_, ?_, ?_⟩
  · intro ft current l ms hct hmd h1 h2 h3
    have hmem : ft ∈ VALID_FILE_TYPES := by simpa using hct
    simp [update_json_file, hmem, hmd, h1, h2, h3]
  · intro ft current u ms hct hmd hne
    have hmem : ft ∈ VALID_FILE_TYPES := by simpa using hct
    cases u with
    | str s => exact absurd rfl (hne s)
    | obj l => simp [update_json_file, hmem, hmd]
    | arr l => simp [update_json_file, hmem, hmd]
    | num n => simp [update_json_file, hmem, hmd]
    | bool b => simp [update_json_file, hmem, hmd]
    | null => simp [update_json_file, hmem, hmd]
  · intro ft current u ms hct hmd hne
    have hmem : ft ∈ VALID_FILE_TYPES := by simpa using hct
    cases u with
    | obj l => exact absurd rfl (hne l)
    | str s => simp [update_json_file, hmem, hmd]
    | arr l => simp [update_json_file, hmem, hmd]
    | num n => simp [update_json_file, hmem, hmd]
    | bool b => simp [update_json_file, hmem, hmd]
    | null => simp [update_json_file, hmem, hmd]

theorem update_validation_errors_witness :
    (VALID_FILE_TYPES.contains "ddd.js" = true ∧
     endsWith "ddd.js" ".md" = false ∧
     ("bogus" : String) ≠ "replace") ∧
      update_json_file true true "ddd.js" (.json []) (.obj []) "bogus" =
        .error "Invalid merge_strategy" :=
  ⟨⟨by decide, by decide, by decide⟩,
   update_validation_errors.1 "ddd.js" (.json []) [] "bogus" (by decide)
     (by decide) (by decide) (by decide) (by decide)⟩

/-- C10: on a free-text (.md) document with a string payload, strategies
merge and append behave exactly like replace — the same content is
written and the payload string is returned. -/
theorem md_update_strategy_irrelevant :
    ∀ (ft : String) (current : FileContent) (s ms : String) (pp fp : Bool),
      endsWith ft ".md" = true → (ms = "merge" ∨ ms = "append") →
      (update_json_file pp fp ft current (.str s) ms =
        update_json_file pp fp ft current (.str s) "replace") ∧
      (VALID_FILE_TYPES.contains ft = true →
        update_json_file true true ft current (.str s) ms =
          .ok (.text s, .str s)) := by
  intro ft current s ms pp fp hmd hms
  constructor
  · rcases hms with rfl | rfl <;> simp [update_json_file, hmd]
  · intro hct
    have hmem : ft ∈ VALID_FILE_TYPES := by simpa using hct
    simp [update_json_file, hmem, hmd]

theorem md_update_strategy_irrelevant_witness :
    (endsWith "summary.md" ".md" = true ∧
     (("merge" : String) = "merge" ∨ ("merge" : String) = "append")) ∧
      (update_json_file true true "summary.md" (.text "old")
          (.str "hello") "merge" =
        update_json_file true true "summary.md" (.text "old")
          (.str "hello") "replace") ∧
      (VALID_FILE_TYPES.contains "summary.md" = true →
        update_json_file true true "summary.md" (.text "old")
            (.str "hello") "merge" = .ok (.text "hello", .str "hello")) :=
  ⟨⟨by decide, Or.inl rfl⟩,
   md_update_strategy_irrelevant "summary.md" (.text "old") "hello" "merge"
     true true (by decide) (Or.inl rfl)⟩
